import Mathlib

/-!
# Archive sessions of `src/Archive.hh`

A shallow embedding of class `Archive`: the storage adapter (`_creat`, `_open`,
`_read`, `_write`, `_close`, `a_creat`, `a_open`, `a_read`, `a_write`,
`a_close`), the session operations (`create`, `open`, `addItem`, `nextItem`,
`extractItem`, `metadata`, `build`, the destructor) and the parts of jansson,
libarchive and the iRODS server API they call.

Conventions.
* A `char *` C string is modelled by its content (a `String`, or a `List Byte`
  for buffers); the terminating NUL is implicit, so `strlen` is the length.
* A pointer that may be `NULL` is an `Option`.
* Mutation is explicit state passing: every operation returns the new state.
* `size_t` counters that are incremented without bound are taken modulo `2 ^ 64`.
-/

namespace ArchiveModel

/-! ## Platform constants -/

/-- One octet of a buffer. -/
abbrev Byte := Nat

/-- Flag `O_RDONLY` of `fcntl.h`. -/
def O_RDONLY : Nat := 0
/-- Flag `O_WRONLY` of `fcntl.h`. -/
def O_WRONLY : Nat := 1
/-- Flag `O_CREAT` of `fcntl.h`. -/
def O_CREAT : Nat := 0o100
/-- Flag `O_TRUNC` of `fcntl.h`. -/
def O_TRUNC : Nat := 0o1000

/-- Status `ARCHIVE_OK` of `archive.h`. -/
def ARCHIVE_OK : Int := 0
/-- Status `ARCHIVE_EOF` of `archive.h`. -/
def ARCHIVE_EOF : Int := 1
/-- Status `ARCHIVE_RETRY` of `archive.h`. -/
def ARCHIVE_RETRY : Int := -10
/-- Status `ARCHIVE_WARN` of `archive.h`. -/
def ARCHIVE_WARN : Int := -20
/-- Status `ARCHIVE_FAILED` of `archive.h`. -/
def ARCHIVE_FAILED : Int := -25
/-- Status `ARCHIVE_FATAL` of `archive.h`. -/
def ARCHIVE_FATAL : Int := -30

/-- Mask `AE_IFMT` of `archive_entry.h`: the file-type bits of a mode. -/
def AE_IFMT : Nat := 0o170000
/-- File type `AE_IFREG` of `archive_entry.h`. -/
def AE_IFREG : Nat := 0o100000
/-- Mask of the non-type bits of a 32-bit `mode_t`, the complement of `AE_IFMT`. -/
def AE_PERM_MASK : Nat := 2 ^ 32 - 1 - AE_IFMT

/-- Size of the transfer buffers `char buf[8192]`. -/
def BUFSIZE : Nat := 8192

/-- Modulus of `size_t`. -/
def SIZE_MOD : Nat := 2 ^ 64

/-- The C conversion `(int) len` of a `size_t`. -/
def toCInt (n : Nat) : Int := ((n + 2 ^ 31) % 2 ^ 32 : Nat) - 2 ^ 31

/-! ## jansson values -/

/-- A `json_t` value. A real is kept as the bit pattern of its double. -/
inductive Json where
  | null
  | jtrue
  | jfalse
  | integer (n : Int)
  | real (bits : Nat)
  | string (s : String)
  | array (elems : List Json)
  | object (members : List (String × Json))

/-- Replace the value of `k` in an object, or append the member at the end. -/
def setMember (k : String) (v : Json) : List (String × Json) → List (String × Json)
  | [] => [(k, v)]
  | (k0, v0) :: rest => if k0 = k then (k, v) :: rest else (k0, v0) :: setMember k v rest

/-- Library call `json_object()`. -/
def json_object : Option Json := some (.object [])

/-- Library call `json_array()`. -/
def json_array : Option Json := some (.array [])

/-- Library call `json_string(s)`; a `String` is always valid UTF-8. -/
def json_string (s : String) : Option Json := some (.string s)

/-- Library calls `json_object_set` and `json_object_set_new`: nothing changes
unless the target is an object and the value is not `NULL`. -/
def json_object_set (obj : Option Json) (key : String) (value : Option Json) : Option Json :=
  match obj, value with
  | some (.object ms), some v => some (.object (setMember key v ms))
  | _, _ => obj

/-- Library call `json_array_append_new`. -/
def json_array_append_new (arr : Option Json) (value : Option Json) : Option Json :=
  match arr, value with
  | some (.array xs), some v => some (.array (xs ++ [v]))
  | _, _ => arr

/-- Library call `json_object_get`: `NULL` unless the target is an object that has the key. -/
def json_object_get (obj : Option Json) (key : String) : Option Json :=
  match obj with
  | some (.object ms) => ms.lookup key
  | _ => none

/-- Library call `json_string_value`: `NULL` unless the value is a string. -/
def json_string_value : Option Json → Option String
  | some (.string s) => some s
  | _ => none

/-- Library call `json_array_get`: `NULL` unless the target is an array and the
index is in range. -/
def json_array_get (arr : Option Json) (i : Nat) : Option Json :=
  match arr with
  | some (.array xs) => xs[i]?
  | _ => none

/-- Library call `json_array_size`: `0` unless the target is an array. -/
def json_array_size : Option Json → Nat
  | some (.array xs) => xs.length
  | _ => 0

/-! ## The iRODS server API and the storage adapter -/

/-- The fields of `fileOpenInp_t` that the adapter sets; all others are zeroed. -/
structure FileOpenInp where
  fileName : String
  mode : Nat
  flags : Nat
deriving DecidableEq

/-- One call of the server API, with the request it carries. -/
inductive Request where
  | fileOpen (inp : FileOpenInp)
  | fileRead (fileInx : Int) (len : Int)
  | fileWrite (fileInx : Int) (len : Int) (bytes : List Byte)
  | fileClose (fileInx : Int)
deriving DecidableEq

/-- What the server returns: the `int` result and, for a read, the bytes it
stored in the caller's buffer. -/
structure Reply where
  status : Int
  bytes : List Byte

/-- The server API the adapter is compiled against (`rsFileOpen.hpp` and the
like are not part of the repository): the name limit, `rstrcpy`,
`getDefFileMode` and the behaviour of the storage backend, which may depend on
all earlier requests. -/
structure Irods where
  MAX_NAME_LEN : Nat
  rstrcpy : String → Nat → String
  getDefFileMode : Nat
  answer : List Request → Request → Reply

/-- The connection `rsComm_t`: the requests issued on it so far. -/
structure RsComm where
  log : List Request

/-- Issue one request on the connection. -/
def RsComm.call (ir : Irods) (comm : RsComm) (rq : Request) : Reply × RsComm :=
  (ir.answer comm.log rq, { log := comm.log ++ [rq] })

/-- Server call `rsFileOpen`. -/
def rsFileOpen (ir : Irods) (comm : RsComm) (inp : FileOpenInp) : Int × RsComm :=
  let r := comm.call ir (.fileOpen inp)
  (r.1.status, r.2)

/-- Server call `rsFileRead`. -/
def rsFileRead (ir : Irods) (comm : RsComm) (fileInx len : Int) : Int × List Byte × RsComm :=
  let r := comm.call ir (.fileRead fileInx len)
  (r.1.status, r.1.bytes, r.2)

/-- Server call `rsFileWrite`. -/
def rsFileWrite (ir : Irods) (comm : RsComm) (fileInx len : Int) (bytes : List Byte) :
    Int × RsComm :=
  let r := comm.call ir (.fileWrite fileInx len bytes)
  (r.1.status, r.2)

/-- Server call `rsFileClose`. -/
def rsFileClose (ir : Irods) (comm : RsComm) (fileInx : Int) : Int × RsComm :=
  let r := comm.call ir (.fileClose fileInx)
  (r.1.status, r.2)

/-- The request built by `Archive::_creat`. -/
def creatInput (ir : Irods) (name : String) : FileOpenInp :=
  { fileName := ir.rstrcpy name ir.MAX_NAME_LEN
    mode := ir.getDefFileMode
    flags := O_CREAT ||| O_WRONLY }

/-- The request built by `Archive::_open`. -/
def openInput (ir : Irods) (name : String) : FileOpenInp :=
  { fileName := ir.rstrcpy name ir.MAX_NAME_LEN
    mode := ir.getDefFileMode
    flags := O_RDONLY }

/-- Method `Archive::_creat`. -/
def _creat (ir : Irods) (comm : RsComm) (name : String) : Int × RsComm :=
  rsFileOpen ir comm (creatInput ir name)

/-- Method `Archive::_open`. -/
def _open (ir : Irods) (comm : RsComm) (name : String) : Int × RsComm :=
  rsFileOpen ir comm (openInput ir name)

/-- Method `Archive::_read`. -/
def _read (ir : Irods) (comm : RsComm) (index : Int) (len : Nat) : Int × List Byte × RsComm :=
  rsFileRead ir comm index (toCInt len)

/-- Method `Archive::_write`. -/
def _write (ir : Irods) (comm : RsComm) (index : Int) (buf : List Byte) (len : Nat) :
    Int × RsComm :=
  rsFileWrite ir comm index (toCInt len) buf

/-- Method `Archive::_close`. -/
def _close (ir : Irods) (comm : RsComm) (index : Int) : Int × RsComm :=
  rsFileClose ir comm index

/-- The adapter state `struct Data`; `rsComm` is the state of the connection the
pointer refers to. -/
structure Data where
  rsComm : RsComm
  name : String
  index : Int
  buf : List Byte

/-- Callback `Archive::a_creat`. -/
def a_creat (ir : Irods) (d : Data) : Int × Data :=
  let r := _open ir d.rsComm d.name
  let d1 := { d with index := r.1, rsComm := r.2 }
  (if d1.index ≥ 0 then ARCHIVE_OK else ARCHIVE_FATAL, d1)

/-- Callback `Archive::a_open`. -/
def a_open (ir : Irods) (d : Data) : Int × Data :=
  let r := _open ir d.rsComm d.name
  let d1 := { d with index := r.1, rsComm := r.2 }
  (if d1.index ≥ 0 then ARCHIVE_OK else ARCHIVE_FATAL, d1)

/-- Callback `Archive::a_read`: the status, the buffer published through `*buf`
(if any) and the new adapter state. -/
def a_read (ir : Irods) (d : Data) : Int × Option (List Byte) × Data :=
  let r := _read ir d.rsComm d.index BUFSIZE
  let d1 := { d with buf := r.2.1, rsComm := r.2.2 }
  if r.1 < 0 then (-1, none, d1) else (r.1, some d1.buf, d1)

/-- Callback `Archive::a_write`. -/
def a_write (ir : Irods) (d : Data) (buf : List Byte) (size : Nat) : Int × Data :=
  let r := _write ir d.rsComm d.index buf size
  let d1 := { d with rsComm := r.2 }
  if r.1 < 0 then (-1, d1) else (r.1, d1)

/-- Callback `Archive::a_close`. -/
def a_close (ir : Irods) (d : Data) : Int × Data :=
  let r := _close ir d.rsComm d.index
  (r.1, { d with rsComm := r.2 })

/-! ## libarchive: entries -/

/-- The fields of `struct archive_entry` the sessions use. -/
structure Entry where
  pathname : Option String
  filetype : Nat
  perm : Nat
  size : Nat
  mtime : Option (Int × Int)
deriving DecidableEq

/-- Library call `archive_entry_new()`. -/
def archive_entry_new : Entry :=
  { pathname := none, filetype := 0, perm := 0, size := 0, mtime := none }

/-- Library call `archive_entry_set_pathname`. -/
def archive_entry_set_pathname (e : Entry) (name : Option String) : Entry :=
  { e with pathname := name }

/-- Library call `archive_entry_set_filetype`: only the type bits are taken. -/
def archive_entry_set_filetype (e : Entry) (type : Nat) : Entry :=
  { e with filetype := type &&& AE_IFMT }

/-- Library call `archive_entry_set_perm`: only the non-type bits are taken. -/
def archive_entry_set_perm (e : Entry) (p : Nat) : Entry :=
  { e with perm := p &&& AE_PERM_MASK }

/-- Library call `archive_entry_set_mode`: type and permission bits at once. -/
def archive_entry_set_mode (e : Entry) (m : Nat) : Entry :=
  { e with filetype := m &&& AE_IFMT, perm := m &&& AE_PERM_MASK }

/-- Library call `archive_entry_set_size`. -/
def archive_entry_set_size (e : Entry) (n : Nat) : Entry :=
  { e with size := n }

/-- Library call `archive_entry_set_mtime`. -/
def archive_entry_set_mtime (e : Entry) (sec nsec : Int) : Entry :=
  { e with mtime := some (sec, nsec) }

/-- Library call `archive_entry_pathname`. -/
def archive_entry_pathname (e : Entry) : Option String := e.pathname

/-- Library call `archive_entry_filetype`. -/
def archive_entry_filetype (e : Entry) : Nat := e.filetype

/-- Library call `archive_entry_perm`. -/
def archive_entry_perm (e : Entry) : Nat := e.perm

/-- Library call `archive_entry_size`. -/
def archive_entry_size (e : Entry) : Nat := e.size

/-! ## libarchive: the write handle -/

/-- Filter and format selected on a write handle. -/
structure Format where
  filter : String
  format : String
deriving DecidableEq

/-- What a session hands to the codec, in order. -/
inductive WriteOp where
  | header (e : Entry)
  | data (bytes : List Byte)
deriving DecidableEq

/-- A write handle `struct archive`: the selected format and everything handed
to it so far. The statuses of `archive_write_header` and `archive_write_data`
are never inspected by the sessions and are not modelled. -/
structure WriteArchive where
  format : Option Format
  ops : List WriteOp
deriving DecidableEq

/-- Library call `archive_write_header`. -/
def archive_write_header (w : WriteArchive) (e : Entry) : WriteArchive :=
  { w with ops := w.ops ++ [.header e] }

/-- Library call `archive_write_data(a, buf, len)`: the first `len` bytes of `buf`. -/
def archive_write_data (w : WriteArchive) (buf : List Byte) (len : Nat) : WriteArchive :=
  { w with ops := w.ops ++ [.data (buf.take len)] }

/-- Library call `archive_write_open(a, data, &a_creat, &a_write, &a_close)`: the
opener callback runs once and its status is the result. -/
def archive_write_open (ir : Irods) (w : WriteArchive) (d : Data) :
    Int × WriteArchive × Data :=
  let r := a_creat ir d
  (r.1, w, r.2)

/-! ## libarchive: the read handle -/

/-- The results of `archive_read_next_header` other than `ARCHIVE_OK`. -/
inductive Status where
  | eof
  | retry
  | warn
  | failed
  | fatal
deriving DecidableEq

/-- The `int` value of a status. -/
def Status.code : Status → Int
  | .eof => ARCHIVE_EOF
  | .retry => ARCHIVE_RETRY
  | .warn => ARCHIVE_WARN
  | .failed => ARCHIVE_FAILED
  | .fatal => ARCHIVE_FATAL

/-- What one call of `archive_read_next_header` finds in the stream: an entry
with its payload, or a status other than `ARCHIVE_OK`. -/
inductive HeaderResult where
  | ok (e : Entry) (payload : List Byte)
  | bad (st : Status)
deriving DecidableEq

/-- A read handle `struct archive`, by its observable behaviour: what the next
header reads will find (end of archive once the list is used up), the unread
payload of the current entry, and how many bytes `archive_read_data` hands out
given the unread count and the requested count (a value `≤ 0` ends the entry
or reports an error). -/
structure ReadArchive where
  upcoming : List HeaderResult
  rest : List Byte
  deliver : Nat → Nat → Int

/-- Library call `archive_read_next_header`: status, entry (on `ARCHIVE_OK`) and
the new handle; unread payload of the previous entry is skipped. -/
def archive_read_next_header (a : ReadArchive) : Int × Option Entry × ReadArchive :=
  match a.upcoming with
  | [] => (ARCHIVE_EOF, none, { a with rest := [] })
  | .ok e payload :: more => (ARCHIVE_OK, some e, { a with upcoming := more, rest := payload })
  | .bad st :: more => (st.code, none, { a with upcoming := more, rest := [] })

/-- Library call `archive_read_data(a, buf, n)`: the returned count, the bytes
stored at the start of `buf`, and the new handle. -/
def archive_read_data (a : ReadArchive) (n : Nat) : Int × List Byte × ReadArchive :=
  let k := a.deliver a.rest.length n
  if k > 0 then (k, a.rest.take k.toNat, { a with rest := a.rest.drop k.toNat })
  else (k, [], a)

/-- Library call `archive_read_open(a, data, &a_open, &a_read, &a_close)`: the
opener callback runs once and its status is the result. -/
def archive_read_open (ir : Irods) (a : ReadArchive) (d : Data) :
    Int × ReadArchive × Data :=
  let r := a_open ir d
  (r.1, a, r.2)

/-! ## The local file system -/

/-- The fields of `struct stat` that `build` copies. -/
structure Stat where
  st_mode : Nat
  st_size : Nat
  st_mtim : Int × Int

/-- The local file system as `build` sees it: the content of `st` after
`stat(filename, &st)` (indeterminate, hence arbitrary, when the call fails or the
name is `NULL`), and the content of an object that can be opened and read
(`none` when `::open` or `read` fails). -/
structure LocalFS where
  stat : Option String → Stat
  content : String → Option (List Byte)

/-- A system call on the destination of `extractItem`. -/
inductive LocalCall where
  | openFile (path : String) (flags : Nat) (mode : Nat)
  | write (bytes : List Byte)
  | close
deriving DecidableEq

/-! ## Sessions -/

/-- The member `struct archive *archive`: a read or a write handle. -/
inductive Handle where
  | reader (a : ReadArchive)
  | writer (w : WriteArchive)

/-- The data members of class `Archive`. -/
structure Archive where
  archive : Handle
  entry : Option Entry
  data : Data
  creating : Bool
  list : Option Json
  index : Nat
  path : String
  origin : String

/-- The constructor `Archive::Archive`: `index` is `0`, `entry` is not set. -/
def Archive.new (archive : Handle) (data : Data) (creating : Bool) (list : Option Json)
    (path collection : String) : Archive :=
  { archive := archive, entry := none, data := data, creating := creating, list := list,
    index := 0, path := path, origin := collection }

/-- Result of `Archive::open`: `NULL`, a session, or undefined behaviour of the
C++ code (a null or uninitialised read). -/
inductive Opened where
  | null
  | undefined
  | session (s : Archive)

/-- Method `Archive::create`. `a` is the result of `archive_write_new()` and
`byExt` is `archive_write_set_format_filter_by_ext`, which selects a format or
fails. -/
def Archive.create (ir : Irods) (byExt : String → Option Format) (a : Option WriteArchive)
    (rsComm : RsComm) (path collection : String) : Option Archive :=
  match a with
  | none => none
  | some a =>
    let a1 : WriteArchive :=
      match byExt path with
      | some f => { a with format := some f }
      | none => { a with format := some { filter := "gzip", format := "ustar" } }
    let data : Data := { rsComm := rsComm, name := path, index := 0, buf := [] }
    let r := archive_write_open ir a1 data
    if r.1 ≠ ARCHIVE_OK then none
    else some (Archive.new (.writer r.2.1) r.2.2 true json_array path collection)

/-- The cleanup `delete data; archive_read_free(a); return NULL;` on the failure
paths of `Archive::open`. `opened` tells whether `archive_read_open` had
succeeded. If it had, `archive_read_free` closes the handle and its closer
`a_close` reads `d->rsComm` and `d->index` from the `Data` deleted just before:
a use after free, undefined behaviour (the destructor releases the handle
before it deletes `data`). If it had not, the handle has nothing to close and
`NULL` is returned. -/
def Archive.openFailed (opened : Bool) : Opened :=
  if opened then .undefined else .null

/-- Method `Archive::open`. `a` is the result of `archive_read_new()` (with all
filters and formats enabled) and `loads` is `json_loads(buf, 0, &error)`. -/
def Archive.open (ir : Irods) (loads : List Byte → Option Json) (a : Option ReadArchive)
    (rsComm : RsComm) (path : String) : Opened :=
  match a with
  | none => .null
  | some a =>
    let data : Data := { rsComm := rsComm, name := path, index := 0, buf := [] }
    let o := archive_read_open ir a data
    if o.1 ≠ ARCHIVE_OK then Archive.openFailed false
    else
      let h := archive_read_next_header o.2.1
      if h.1 ≠ ARCHIVE_OK then Archive.openFailed true
      else
        match h.2.1 with
        | none => .undefined
        | some entry =>
          match archive_entry_pathname entry with
          | none => .undefined
          | some name =>
            if name ≠ "INDEX.json" then Archive.openFailed true
            else
              let len := archive_entry_size entry
              let r := archive_read_data h.2.2 len
              -- cells of `buf` beyond the returned count stay uninitialised
              if r.1 ≠ (len : Int) then .undefined
              else
                let json := loads r.2.1
                -- `origin = json_string_value(...)` with a null pointer is undefined
                match json_string_value (json_object_get json "collection") with
                | none => .undefined
                | some origin =>
                  let list := json_object_get json "items"
                  .session (Archive.new (.reader r.2.2) o.2.2 false list path origin)

/-- Method `Archive::addItem`. -/
def Archive.addItem (s : Archive) (path : String) (metadata : Option Json) : Archive :=
  let json := json_object
  let json := json_object_set json "path" (json_string path)
  let json := json_object_set json "metadata" metadata
  { s with list := json_array_append_new s.list json }

/-- Method `Archive::nextItem`: the returned string and the new session; `none`
is undefined behaviour (no read handle, or an entry without a pathname). -/
def Archive.nextItem (s : Archive) : Option (String × Archive) :=
  let s1 := { s with index := (s.index + 1) % SIZE_MOD }
  match s1.archive with
  | .writer _ => none
  | .reader a =>
    let h := archive_read_next_header a
    let s2 := { s1 with archive := .reader h.2.2, entry := h.2.1 }
    if h.1 ≠ ARCHIVE_OK then some ("", s2)
    else
      match h.2.1 with
      | none => none
      | some e =>
        match archive_entry_pathname e with
        | none => none
        | some name => some (name, s2)

/-- The loop of `Archive::extractItem`: `fuel` bounds the number of reads. -/
def extractLoop : Nat → ReadArchive → Option (List LocalCall × ReadArchive)
  | 0, _ => none
  | fuel + 1, a =>
    let r := archive_read_data a BUFSIZE
    if r.1 > 0 then
      match extractLoop fuel r.2.2 with
      | some (ws, a2) => some (.write (r.2.1.take r.1.toNat) :: ws, a2)
      | none => none
    else some ([], r.2.2)

/-- Method `Archive::extractItem`: the system calls made on the destination and
the new session; `none` when `fuel` reads do not reach the end of the entry or
when there is no read handle or no current entry. -/
def Archive.extractItem (fuel : Nat) (s : Archive) (filename : String) :
    Option (List LocalCall × Archive) :=
  match s.archive, s.entry with
  | .reader a, some entry =>
    let mode := archive_entry_perm entry
    match extractLoop fuel a with
    | some (ws, a2) =>
      some (.openFile filename (O_CREAT ||| O_TRUNC ||| O_WRONLY) mode :: ws ++ [.close],
        { s with archive := .reader a2 })
    | none => none
  | _, _ => none

/-- Method `Archive::metadata`; `index - 1` is computed in `size_t`. -/
def Archive.metadata (s : Archive) : Option Json :=
  json_array_get s.list ((s.index + SIZE_MOD - 1) % SIZE_MOD)

/-- The inner loop of `Archive::build` on an object that can be read: `read`
fills the buffer with up to `BUFSIZE` bytes until none are left. -/
def pump : Nat → List Byte → WriteArchive → WriteArchive
  | 0, _, w => w
  | fuel + 1, rest, w =>
    let len := min BUFSIZE rest.length
    if len > 0 then pump fuel (rest.drop len) (archive_write_data w (rest.take BUFSIZE) len)
    else w

/-- What `build` has done when it stops: the write handle, and whether the loop
over the items ran to its end. -/
structure Built where
  archive : WriteArchive
  finished : Bool

/-- The loop `for (index = 0; index < json_array_size(list); index++)` of
`Archive::build`, with `n` iterations left. When the object cannot be opened or
read, `read` returns `-1`, which the unsigned `len` turns into a positive count
larger than the buffer: the loop body is entered with an out-of-bounds length
and the build does not complete. -/
def buildItems (fs : LocalFS) (list : Option Json) : Nat → Nat → WriteArchive → Built
  | 0, _, w => { archive := w, finished := true }
  | n + 1, index, w =>
    let entry := archive_entry_new
    let json := json_array_get list index
    let filename := json_string_value (json_object_get json "path")
    let entry := archive_entry_set_pathname entry filename
    let st := fs.stat filename
    let entry := archive_entry_set_mode entry st.st_mode
    let entry := archive_entry_set_size entry st.st_size
    let entry := archive_entry_set_mtime entry st.st_mtim.1 st.st_mtim.2
    let w1 := archive_write_header w entry
    match filename.bind fs.content with
    | none => { archive := w1, finished := false }
    | some bytes => buildItems fs list n (index + 1) (pump (bytes.length + 1) bytes w1)

/-- The manifest document assembled at the start of `Archive::build`. -/
def manifestJson (origin : String) (list : Option Json) : Option Json :=
  let json := json_object
  let json := json_object_set json "collection" (json_string origin)
  json_object_set json "items" list

/-- Method `Archive::build`. `dumps` is `json_dumps(json, JSON_INDENT(2))`, which
returns a NUL-terminated string, so `strlen(str)` is the length of its content.
`none` when the session has no write handle. -/
def Archive.build (dumps : Option Json → List Byte) (fs : LocalFS) (s : Archive) :
    Option Built :=
  match s.archive with
  | .reader _ => none
  | .writer w =>
    let json := manifestJson s.origin s.list
    let str := dumps json
    let len := str.length
    let entry := archive_entry_new
    let entry := archive_entry_set_pathname entry (some "INDEX.json")
    let entry := archive_entry_set_filetype entry AE_IFREG
    let entry := archive_entry_set_perm entry 0o444
    let entry := archive_entry_set_size entry len
    let w := archive_write_header w entry
    let w := archive_write_data w str len
    some (buildItems fs s.list (json_array_size s.list) 0 w)

/-- Library calls `archive_write_free` and `archive_read_free`: the handle is
closed, which runs the closer callback `a_close` once. -/
def archive_free (ir : Irods) (d : Data) : Data := (a_close ir d).2

/-- The destructor `Archive::~Archive`: a creating session is built and its
handle released; a reading session only releases its handle. The result is
what `build` did, if it was called, and the adapter state at the end; the
handle is not released when `build` does not run to its end. -/
def Archive.destroy (ir : Irods) (dumps : Option Json → List Byte) (fs : LocalFS)
    (s : Archive) : Option Built × Data :=
  if s.creating then
    match s.build dumps fs with
    | some b => if b.finished then (some b, archive_free ir s.data) else (some b, s.data)
    | none => (none, s.data)
  else (none, archive_free ir s.data)

/-! ## Derived notions used to state the properties -/

/-- The object `Archive::addItem` appends for `(path, metadata)`. -/
def itemJson (path : String) (metadata : Option Json) : Option Json :=
  json_object_set (json_object_set json_object "path" (json_string path)) "metadata" metadata

/-- The record of the item `(path, metadata)` in the manifest. -/
def itemObj (p : String × Json) : Json :=
  .object [("path", .string p.1), ("metadata", p.2)]

/-- The calls `addItem(path, metadata)` for each pair, in order. -/
def addItems (pairs : List (String × Json)) (s : Archive) : Archive :=
  pairs.foldl (fun acc p => acc.addItem p.1 (some p.2)) s

/-- Whether the header read of the next `nextItem` call returns `ARCHIVE_OK`. -/
def Archive.nextOk (s : Archive) : Bool :=
  match s.archive with
  | .reader a => decide ((archive_read_next_header a).1 = ARCHIVE_OK)
  | .writer _ => false

/-- The first `n` calls of `nextItem`: for each call whether its header read
succeeded and the string it returned, and the session afterwards. -/
def Archive.nextItems : Nat → Archive → Option (List (Bool × String) × Archive)
  | 0, s => some ([], s)
  | n + 1, s =>
    match s.nextItem with
    | none => none
    | some (name, s1) =>
      match Archive.nextItems n s1 with
      | none => none
      | some (rs, s2) => some ((s.nextOk, name) :: rs, s2)

/-- Number of calls that succeeded. -/
def successes (rs : List (Bool × String)) : Nat :=
  (rs.filter (fun r => r.1)).length

/-- The entry of the first header read, if that read succeeds. -/
def firstHeader (a : ReadArchive) : Option Entry :=
  match a.upcoming with
  | .ok e _ :: _ => some e
  | _ => none

/-- The pathnames of the headers handed to the codec, in order. -/
def headerNames : List WriteOp → List (Option String)
  | [] => []
  | .header e :: ops => e.pathname :: headerNames ops
  | .data _ :: ops => headerNames ops

/-- The data handed to the codec before the next header. -/
def payloadOf : List WriteOp → List Byte
  | .data bytes :: ops => bytes ++ payloadOf ops
  | _ => []

/-- The container a correct codec makes of what was handed to it: one entry per
header, with the data that followed it. -/
def membersOf : List WriteOp → List HeaderResult
  | [] => []
  | .header e :: ops => .ok e (payloadOf ops) :: membersOf ops
  | .data _ :: ops => membersOf ops

/-- A codec read that hands out as much as was asked for, or all that is left. -/
def fullDeliver (unread requested : Nat) : Int := (min unread requested : Nat)

/-- A read handle on the container made of `ops` by a correct codec. -/
def containerOf (ops : List WriteOp) : ReadArchive :=
  { upcoming := membersOf ops, rest := [], deliver := fullDeliver }

/-- The header `build` writes for an item whose recorded path is `filename`. -/
def itemHeader (fs : LocalFS) (filename : Option String) : Entry :=
  { pathname := filename
    filetype := (fs.stat filename).st_mode &&& AE_IFMT
    perm := (fs.stat filename).st_mode &&& AE_PERM_MASK
    size := (fs.stat filename).st_size
    mtime := some (fs.stat filename).st_mtim }

/-- The recorded path of the item at `index`, as the loop of `build` reads it. -/
def itemPath (list : Option Json) (index : Nat) : Option String :=
  json_string_value (json_object_get (json_array_get list index) "path")

/-- The recorded paths of all items of the manifest list, in order. -/
def itemPaths (list : Option Json) : List (Option String) :=
  (List.range (json_array_size list)).map (itemPath list)

/-- The bytes written by the `write` calls, in order. -/
def writtenChunks : List LocalCall → List (List Byte)
  | [] => []
  | .write bytes :: cs => bytes :: writtenChunks cs
  | _ :: cs => writtenChunks cs

/-- The session after a `nextItem` call that left the handle as `a` and the
current entry as `e`. -/
def Archive.advanced (s : Archive) (a : ReadArchive) (e : Option Entry) : Archive :=
  { s with index := (s.index + 1) % SIZE_MOD, archive := .reader a, entry := e }

/-- The pathname a header read delivers, if it succeeds with a named entry. -/
def HeaderResult.pathname : HeaderResult → Option String
  | .ok e _ => e.pathname
  | .bad _ => none

/-- Every entry the header reads will find has a pathname. -/
def allNamed : List HeaderResult → Bool
  | [] => true
  | .ok e _ :: more => e.pathname.isSome && allNamed more
  | .bad _ :: more => allNamed more

/-! ## Concrete inputs -/

/-- The bytes of an ASCII text. -/
def bytesOf (text : String) : List Byte := text.data.map Char.toNat

/-- The parser `json_loads` at the one document `doc`, which it maps to `value`. -/
def loadsAt (doc : List Byte) (value : Json) : List Byte → Option Json :=
  fun input => if input = doc then some value else none

/-- The printer `json_dumps` at the one value it is applied to, whose text is `doc`. -/
def dumpsAt (doc : List Byte) : Option Json → List Byte :=
  fun _ => doc

/-- A server whose backend accepts every request, returning handle `3`. -/
def demoIrods : Irods :=
  { MAX_NAME_LEN := 1088
    rstrcpy := fun s n => String.mk (s.data.take (n - 1))
    getDefFileMode := 0o750
    answer := fun _ _ => { status := 3, bytes := [] } }

/-- A fresh connection. -/
def demoComm : RsComm := { log := [] }

/-- Format selection that recognises no extension. -/
def noExt : String → Option Format := fun _ => none

/-- A fresh write handle. -/
def freshWrite : WriteArchive := { format := none, ops := [] }

/-- Header of a manifest entry of `n` bytes. -/
def indexEntry (n : Nat) : Entry :=
  { pathname := some "INDEX.json", filetype := AE_IFREG, perm := 0o444, size := n, mtime := none }

/-- Header of a regular file `name` of `n` bytes with permission `0644`. -/
def fileEntry (name : String) (n : Nat) : Entry :=
  { pathname := some name, filetype := AE_IFREG, perm := 0o644, size := n, mtime := none }

/-- Manifest text without the field `items`. -/
def docNoItems : List Byte := bytesOf "\x7b\"collection\": \"c\"\x7d"

/-- The value `docNoItems` parses to. -/
def jsonNoItems : Json := .object [("collection", .string "c")]

/-- A container whose only entry is the manifest `docNoItems`. -/
def archNoItems : ReadArchive :=
  { upcoming := [.ok (indexEntry docNoItems.length) docNoItems], rest := [],
    deliver := fullDeliver }

/-- Manifest text with the one item `("a", "m")`, as printed with indentation 2. -/
def docOneItem : List Byte :=
  bytesOf ("\x7b\n  \"collection\": \"c\",\n  \"items\": [\n    \x7b\n      \"path\": \"a\",\n" ++
    "      \"metadata\": \"m\"\n    \x7d\n  ]\n\x7d")

/-- The value `docOneItem` parses to. -/
def jsonOneItem : Json :=
  .object [("collection", .string "c"),
    ("items", .array [.object [("path", .string "a"), ("metadata", .string "m")]])]

/-- A container with the manifest `docOneItem` and the entry `a` of three bytes. -/
def archOneItem : ReadArchive :=
  { upcoming := [.ok (indexEntry docOneItem.length) docOneItem, .ok (fileEntry "a" 3) [104, 105, 10]],
    rest := [], deliver := fullDeliver }

/-- The reading session `open` returns on `archOneItem`, up to the adapter state. -/
def sessionOneItem : Archive :=
  Archive.new
    (.reader { upcoming := [.ok (fileEntry "a" 3) [104, 105, 10]], rest := [],
               deliver := fullDeliver })
    { rsComm := demoComm, name := "x.tar", index := 3, buf := [] } false
    (json_object_get (some jsonOneItem) "items") "x.tar" "c"

/-- A codec read that hands out one byte at a time. -/
def dripDeliver (unread requested : Nat) : Int :=
  if unread = 0 ∨ requested = 0 then 0 else 1

/-- A reading session positioned before the entry `a` of three bytes, on a
codec that hands out one byte per read. -/
def sessionDrip : Archive :=
  Archive.new
    (.reader { upcoming := [.ok (fileEntry "a" 3) [104, 105, 10]], rest := [],
               deliver := dripDeliver })
    { rsComm := demoComm, name := "x.tar", index := 3, buf := [] } false
    (json_object_get (some jsonOneItem) "items") "x.tar" "c"

/-- A building session with the one item `("a", "m")` and nothing written yet. -/
def sessionBuilding : Archive :=
  Archive.new (.writer freshWrite) { rsComm := demoComm, name := "x.tar", index := 3, buf := [] }
    true (some (.array [itemObj ("a", .string "m")])) "x.tar" "c"

/-- Manifest text with the items `("zz", null)` and `("a", "m")`, as printed with
indentation 2. -/
def docTwoItems : List Byte :=
  bytesOf ("\x7b\n  \"collection\": \"c\",\n  \"items\": [\n    \x7b\n      \"path\": \"zz\",\n" ++
    "      \"metadata\": null\n    \x7d,\n    \x7b\n      \"path\": \"a\",\n" ++
    "      \"metadata\": \"m\"\n    \x7d\n  ]\n\x7d")

/-- A container whose first entry is not the manifest. -/
def archWrongFirst : ReadArchive :=
  { upcoming := [.ok (fileEntry "data.txt" 3) [104, 105, 10]], rest := [], deliver := fullDeliver }

/-- A local file system where `a` and `b` are regular files and nothing else
can be opened. -/
def demoFS : LocalFS :=
  { stat := fun name =>
      if name = some "a" then { st_mode := 0o100644, st_size := 3, st_mtim := (1500000000, 0) }
      else if name = some "b" then { st_mode := 0o100600, st_size := 2, st_mtim := (1500000001, 0) }
      else { st_mode := 0, st_size := 0, st_mtim := (0, 0) }
    content := fun name =>
      if name = "a" then some [104, 105, 10]
      else if name = "b" then some [111, 107]
      else none }

/-! ## The storage adapter -/

theorem a_open_status (ir : Irods) (d : Data) :
    (a_open ir d).1 = ARCHIVE_OK ↔
      0 ≤ (ir.answer d.rsComm.log (.fileOpen (openInput ir d.name))).status := by
  simp only [a_open, _open, rsFileOpen, RsComm.call, ARCHIVE_OK, ARCHIVE_FATAL]
  split <;> simp_all

/-- C10: the adapter callbacks map the backend result to the codec status
without loss. `a_read` and `a_write` return `-1` when the backend result is
negative and the result itself otherwise, and `a_read` then publishes the
transfer buffer; `a_open` and `a_creat` return `ARCHIVE_OK` exactly when the
handle returned by the backend is not negative and `ARCHIVE_FATAL` otherwise,
and store the handle; each of them issues exactly one backend request. -/
theorem adapter_status_mapping (ir : Irods) (d : Data) (buf : List Byte) (size : Nat) :
    ((a_read ir d).1 =
        (if (ir.answer d.rsComm.log (.fileRead d.index (toCInt BUFSIZE))).status < 0 then -1
         else (ir.answer d.rsComm.log (.fileRead d.index (toCInt BUFSIZE))).status) ∧
      (a_read ir d).2.1 =
        (if (ir.answer d.rsComm.log (.fileRead d.index (toCInt BUFSIZE))).status < 0 then none
         else some (a_read ir d).2.2.buf) ∧
      (a_read ir d).2.2.rsComm.log = d.rsComm.log ++ [.fileRead d.index (toCInt BUFSIZE)]) ∧
    ((a_write ir d buf size).1 =
        (if (ir.answer d.rsComm.log (.fileWrite d.index (toCInt size) buf)).status < 0 then -1
         else (ir.answer d.rsComm.log (.fileWrite d.index (toCInt size) buf)).status) ∧
      (a_write ir d buf size).2.rsComm.log =
        d.rsComm.log ++ [.fileWrite d.index (toCInt size) buf]) ∧
    (((a_open ir d).1 = ARCHIVE_OK ↔ 0 ≤ (a_open ir d).2.index) ∧
      ((a_open ir d).1 = ARCHIVE_FATAL ↔ (a_open ir d).2.index < 0) ∧
      (a_open ir d).2.index =
        (ir.answer d.rsComm.log (.fileOpen (openInput ir d.name))).status ∧
      (a_open ir d).2.rsComm.log = d.rsComm.log ++ [.fileOpen (openInput ir d.name)]) ∧
    (((a_creat ir d).1 = ARCHIVE_OK ↔ 0 ≤ (a_creat ir d).2.index) ∧
      ((a_creat ir d).1 = ARCHIVE_FATAL ↔ (a_creat ir d).2.index < 0) ∧
      (∃ inp, (a_creat ir d).2.index = (ir.answer d.rsComm.log (.fileOpen inp)).status ∧
        (a_creat ir d).2.rsComm.log = d.rsComm.log ++ [.fileOpen inp])) := by
  refine ⟨⟨?_, ?_, ?_⟩, ⟨?_, ?_⟩, ⟨?_, ?_, ?_, ?_⟩, ⟨?_, ?_, ?_⟩⟩
  · simp only [a_read, _read, rsFileRead, RsComm.call]
    split <;> rfl
  · simp only [a_read, _read, rsFileRead, RsComm.call]
    split <;> rfl
  · simp only [a_read, _read, rsFileRead, RsComm.call]
    split <;> rfl
  · simp only [a_write, _write, rsFileWrite, RsComm.call]
    split <;> rfl
  · simp only [a_write, _write, rsFileWrite, RsComm.call]
    split <;> rfl
  · simp only [a_open, _open, rsFileOpen, RsComm.call, ARCHIVE_OK, ARCHIVE_FATAL]
    split <;> simp_all
  · simp only [a_open, _open, rsFileOpen, RsComm.call, ARCHIVE_OK, ARCHIVE_FATAL]
    split <;> simp_all
  · rfl
  · rfl
  · simp only [a_creat, _open, rsFileOpen, RsComm.call, ARCHIVE_OK, ARCHIVE_FATAL]
    split <;> simp_all
  · simp only [a_creat, _open, rsFileOpen, RsComm.call, ARCHIVE_OK, ARCHIVE_FATAL]
    split <;> simp_all
  · exact ⟨openInput ir d.name, rfl, rfl⟩

/-- C9, as the code behaves: the one request `a_creat` issues is the read-only
request of `_open`, with flags `O_RDONLY` and not `O_CREAT | O_WRONLY`; the
request of `_creat`, which carries those flags, is not the one issued, and
`a_creat` is indistinguishable from `a_open`. -/
theorem a_creat_issues_read_only_request (ir : Irods) (d : Data) :
    (a_creat ir d).2.rsComm.log = d.rsComm.log ++ [.fileOpen (openInput ir d.name)] ∧
    (openInput ir d.name).flags = O_RDONLY ∧
    (openInput ir d.name).flags ≠ O_CREAT ||| O_WRONLY ∧
    (creatInput ir d.name).flags = O_CREAT ||| O_WRONLY ∧
    (_creat ir d.rsComm d.name).2.log = d.rsComm.log ++ [.fileOpen (creatInput ir d.name)] ∧
    a_creat ir d = a_open ir d := by
  refine ⟨rfl, rfl, ?_, rfl, rfl, rfl⟩
  simp only [openInput]
  decide

/-! ## Opening a container -/

theorem firstHeader_eq_some {a : ReadArchive} {e : Entry} (h : firstHeader a = some e) :
    ∃ payload more, a.upcoming = .ok e payload :: more := by
  unfold firstHeader at h
  split at h
  · rename_i e0 p0 m0 heq
    cases h
    exact ⟨p0, m0, heq⟩
  · cases h

theorem next_header_ok {a : ReadArchive} {e : Entry} {payload : List Byte}
    {more : List HeaderResult} (h : a.upcoming = .ok e payload :: more) :
    archive_read_next_header a =
      (ARCHIVE_OK, some e, { a with upcoming := more, rest := payload }) := by
  simp [archive_read_next_header, h]

theorem status_code_ne_ok (st : Status) : st.code ≠ ARCHIVE_OK := by
  cases st <;> decide

theorem next_header_ok_iff (a : ReadArchive) :
    (archive_read_next_header a).1 = ARCHIVE_OK ↔ ∃ e, firstHeader a = some e := by
  unfold archive_read_next_header firstHeader
  cases h : a.upcoming with
  | nil => simp [ARCHIVE_EOF, ARCHIVE_OK]
  | cons r more =>
    cases r with
    | ok e payload => simp
    | bad st => simp [status_code_ne_ok]

theorem open_session_first_name (ir : Irods) (loads : List Byte → Option Json)
    (a : ReadArchive) (rsComm : RsComm) (path : String) (s : Archive)
    (hs : Archive.open ir loads (some a) rsComm path = .session s) :
    ∃ e, firstHeader a = some e ∧ e.pathname = some "INDEX.json" := by
  simp only [Archive.open, archive_read_open, Archive.openFailed] at hs
  split at hs
  · simp at hs
  · split at hs
    · simp at hs
    · rename_i hok
      simp only [ne_eq, Decidable.not_not] at hok
      obtain ⟨e, he⟩ := (next_header_ok_iff a).1 hok
      obtain ⟨payload, more, hup⟩ := firstHeader_eq_some he
      refine ⟨e, he, ?_⟩
      simp only [next_header_ok hup, archive_entry_pathname] at hs
      cases hp : e.pathname with
      | none => simp [hp] at hs
      | some name =>
        simp only [hp] at hs
        split at hs
        · simp at hs
        · rename_i hn
          simp only [ne_eq, Decidable.not_not] at hn
          rw [hn]

theorem open_wrong_name (ir : Irods) (loads : List Byte → Option Json)
    (a : ReadArchive) (rsComm : RsComm) (path : String) (e : Entry) (name : String)
    (hopen : 0 ≤ (ir.answer rsComm.log (.fileOpen (openInput ir path))).status)
    (hf : firstHeader a = some e) (hp : e.pathname = some name)
    (hne : name ≠ "INDEX.json") :
    Archive.open ir loads (some a) rsComm path = .undefined := by
  have hst : (a_open ir { rsComm := rsComm, name := path, index := 0, buf := [] }).1
      = ARCHIVE_OK := (a_open_status ir _).2 hopen
  obtain ⟨payload, more, hup⟩ := firstHeader_eq_some hf
  simp [Archive.open, archive_read_open, hst, next_header_ok hup, archive_entry_pathname, hp,
    hne, Archive.openFailed]

/-- C2, as the code behaves on a container whose first entry is `data.txt`: the
backend open and the first header read succeed, the pathname differs from
`INDEX.json`, and `open` does not return `NULL` cleanly: it deletes `data` and
then releases the handle, whose closer reads the deleted `Data`, so the
outcome is undefined behaviour. No session is returned either. -/
theorem open_wrong_name_reads_deleted_data :
    (archive_read_open demoIrods archWrongFirst
      { rsComm := demoComm, name := "x.tar", index := 0, buf := [] }).1 = ARCHIVE_OK ∧
    firstHeader archWrongFirst = some (fileEntry "data.txt" 3) ∧
    (fileEntry "data.txt" 3).pathname ≠ some "INDEX.json" ∧
    Archive.open demoIrods (loadsAt docNoItems jsonNoItems) (some archWrongFirst) demoComm
      "x.tar" = .undefined ∧
    Archive.open demoIrods (loadsAt docNoItems jsonNoItems) (some archWrongFirst) demoComm
      "x.tar" ≠ .null := by
  refine ⟨rfl, rfl, by decide, rfl, ?_⟩
  intro h
  have h2 : Opened.undefined = Opened.null := h
  cases h2

theorem read_data_whole {a : ReadArchive} {n : Nat} (hn : n = a.rest.length)
    (hd : a.deliver a.rest.length n = (n : Int)) :
    archive_read_data a n = ((n : Int), a.rest, { a with rest := [] }) := by
  subst hn
  unfold archive_read_data
  simp only [hd]
  by_cases h0 : a.rest.length = 0
  · have hnil : a.rest = [] := List.length_eq_zero.mp h0
    cases a
    simp_all
  · have hpos : (0 : Int) < (a.rest.length : Int) := by omega
    simp [hpos]

theorem open_of_manifest (ir : Irods) (loads : List Byte → Option Json)
    (a : ReadArchive) (rsComm : RsComm) (path : String) (e : Entry) (payload : List Byte)
    (more : List HeaderResult) (json : Json) (c : String)
    (hopen : 0 ≤ (ir.answer rsComm.log (.fileOpen (openInput ir path))).status)
    (hup : a.upcoming = .ok e payload :: more)
    (hname : e.pathname = some "INDEX.json")
    (hsize : e.size = payload.length)
    (hdel : a.deliver payload.length e.size = (e.size : Int))
    (hloads : loads payload = some json)
    (hcoll : json_string_value (json_object_get (some json) "collection") = some c) :
    ∃ s, Archive.open ir loads (some a) rsComm path = .session s ∧
      s.origin = c ∧ s.list = json_object_get (some json) "items" ∧
      s.index = 0 ∧ s.creating = false ∧
      s.archive = .reader { a with upcoming := more, rest := [] } := by
  have hst : (a_open ir { rsComm := rsComm, name := path, index := 0, buf := [] }).1
      = ARCHIVE_OK := (a_open_status ir _).2 hopen
  have hrd := read_data_whole (a := { a with upcoming := more, rest := payload })
    (n := e.size) hsize (by simpa using hdel)
  simp only [Archive.open, archive_read_open, hst, next_header_ok hup,
    archive_entry_pathname, hname, archive_entry_size, hrd]
  simp [hloads, hcoll, Archive.new]

/-- C3, as the code behaves: once the backend open and the first header read
succeed and the first entry is named `INDEX.json`, no content of the manifest
makes `open` return `NULL`; and when the payload is read in full and parses to
a value whose field `collection` is a string, `open` returns a session with
that origin whose item list is whatever `json_object_get` finds under `items`
(`NULL` when the field is absent, a value of any type otherwise). -/
theorem open_takes_manifest_unchecked (ir : Irods) (loads : List Byte → Option Json)
    (a : ReadArchive) (rsComm : RsComm) (path : String) (e : Entry) (payload : List Byte)
    (more : List HeaderResult)
    (hopen : 0 ≤ (ir.answer rsComm.log (.fileOpen (openInput ir path))).status)
    (hup : a.upcoming = .ok e payload :: more)
    (hname : e.pathname = some "INDEX.json") :
    Archive.open ir loads (some a) rsComm path ≠ .null ∧
    (∀ json c, e.size = payload.length →
        a.deliver payload.length e.size = (e.size : Int) →
        loads payload = some json →
        json_string_value (json_object_get (some json) "collection") = some c →
        ∃ s, Archive.open ir loads (some a) rsComm path = .session s ∧
          s.origin = c ∧ s.list = json_object_get (some json) "items" ∧
          s.index = 0 ∧ s.creating = false ∧
          s.archive = .reader { a with upcoming := more, rest := [] }) := by
  have hst : (a_open ir { rsComm := rsComm, name := path, index := 0, buf := [] }).1
      = ARCHIVE_OK := (a_open_status ir _).2 hopen
  constructor
  · simp only [Archive.open, archive_read_open, hst, next_header_ok hup,
      archive_entry_pathname, hname, Archive.openFailed]
    simp only [ne_eq, not_true_eq_false, if_false]
    split
    · simp
    · split <;> simp
  · intro json c hsize hdel hloads hcoll
    exact open_of_manifest ir loads a rsComm path e payload more json c hopen hup hname hsize
      hdel hloads hcoll

/-- C3, amended, at the manifest `docNoItems`. -/
theorem open_takes_manifest_unchecked_witness :
    ∃ s, Archive.open demoIrods (loadsAt docNoItems jsonNoItems) (some archNoItems) demoComm
        "x.tar" = .session s ∧
      s.origin = "c" ∧ s.list = json_object_get (some jsonNoItems) "items" ∧
      s.index = 0 ∧ s.creating = false ∧
      s.archive = .reader { archNoItems with upcoming := [], rest := [] } :=
  (open_takes_manifest_unchecked demoIrods (loadsAt docNoItems jsonNoItems) archNoItems
    demoComm "x.tar" (indexEntry docNoItems.length) docNoItems [] (by decide) rfl rfl).2
    jsonNoItems "c" rfl (by decide) rfl rfl

/-- C3 fails as stated: the first entry is `INDEX.json`, its payload parses to an
object that has no field `items`, and `open` returns a session, whose item list
is `NULL`. -/
theorem open_accepts_manifest_without_items :
    firstHeader archNoItems = some (indexEntry docNoItems.length) ∧
    loadsAt docNoItems jsonNoItems docNoItems = some jsonNoItems ∧
    json_object_get (some jsonNoItems) "items" = none ∧
    ∃ s, Archive.open demoIrods (loadsAt docNoItems jsonNoItems) (some archNoItems) demoComm
        "x.tar" = .session s ∧ s.list = none :=
  ⟨rfl, rfl, rfl, _, rfl, rfl⟩

/-! ## Iteration -/

theorem size_mod_pos : 0 < SIZE_MOD := by decide

theorem size_mod_step (i n : Nat) : ((i + 1) % SIZE_MOD + n) % SIZE_MOD = (i + (n + 1)) % SIZE_MOD := by
  simp only [SIZE_MOD]
  omega

theorem nextItem_reader_empty {s : Archive} {a : ReadArchive} (hs : s.archive = .reader a)
    (hup : a.upcoming = []) :
    s.nextItem = some ("",
      s.advanced { a with rest := [] } none) ∧
    s.nextOk = false := by
  constructor
  · simp [Archive.nextItem, Archive.advanced, hs, archive_read_next_header, hup, ARCHIVE_EOF,
      ARCHIVE_OK]
  · simp [Archive.nextOk, hs, archive_read_next_header, hup, ARCHIVE_EOF, ARCHIVE_OK]

theorem nextItem_reader_bad {s : Archive} {a : ReadArchive} {st : Status}
    {more : List HeaderResult} (hs : s.archive = .reader a) (hup : a.upcoming = .bad st :: more) :
    s.nextItem = some ("",
      s.advanced { a with upcoming := more, rest := [] } none) ∧
    s.nextOk = false := by
  constructor
  · simp [Archive.nextItem, Archive.advanced, hs, archive_read_next_header, hup,
      status_code_ne_ok]
  · simp [Archive.nextOk, hs, archive_read_next_header, hup, status_code_ne_ok]

theorem nextItem_reader_ok {s : Archive} {a : ReadArchive} {e : Entry} {payload : List Byte}
    {more : List HeaderResult} {name : String} (hs : s.archive = .reader a)
    (hup : a.upcoming = .ok e payload :: more) (hname : e.pathname = some name) :
    s.nextItem = some (name,
      s.advanced { a with upcoming := more, rest := payload } (some e)) ∧
    s.nextOk = true := by
  constructor
  · simp [Archive.nextItem, Archive.advanced, hs, archive_read_next_header, hup,
      archive_entry_pathname, hname]
  · simp [Archive.nextOk, hs, archive_read_next_header, hup]

theorem allNamed_tail {rs : List HeaderResult} (h : allNamed rs = true) :
    allNamed rs.tail = true := by
  cases rs with
  | nil => rfl
  | cons r more =>
    cases r with
    | ok e payload =>
      simp only [allNamed, Bool.and_eq_true] at h
      exact h.2
    | bad st => simpa [allNamed] using h

theorem nextItem_step {s : Archive} {a : ReadArchive} (hs : s.archive = .reader a)
    (hnamed : allNamed a.upcoming = true) :
    ∃ name s1 a1, s.nextItem = some (name, s1) ∧ s1.archive = .reader a1 ∧
      a1.upcoming = a.upcoming.tail ∧ a1.deliver = a.deliver ∧
      s1.index = (s.index + 1) % SIZE_MOD ∧ s1.list = s.list ∧ s1.creating = s.creating := by
  cases hup : a.upcoming with
  | nil =>
    exact ⟨_, _, _, (nextItem_reader_empty hs hup).1, rfl, by simp [hup], rfl, rfl, rfl, rfl⟩
  | cons r more =>
    rw [hup] at hnamed
    cases r with
    | bad st =>
      exact ⟨_, _, _, (nextItem_reader_bad hs hup).1, rfl, rfl, rfl, rfl, rfl, rfl⟩
    | ok e payload =>
      simp only [allNamed, Bool.and_eq_true, Option.isSome_iff_exists] at hnamed
      obtain ⟨⟨name, hname⟩, _⟩ := hnamed
      exact ⟨_, _, _, (nextItem_reader_ok hs hup hname).1, rfl, rfl, rfl, rfl, rfl, rfl⟩

theorem nextItems_total (n : Nat) : ∀ (s : Archive) (a : ReadArchive),
    s.archive = .reader a → allNamed a.upcoming = true → s.index < SIZE_MOD →
    ∃ rs s', s.nextItems n = some (rs, s') ∧ rs.length = n ∧
      s'.index = (s.index + n) % SIZE_MOD ∧ s'.list = s.list := by
  induction n with
  | zero =>
    intro s a _ _ hlt
    exact ⟨[], s, rfl, rfl, (Nat.mod_eq_of_lt hlt).symm, rfl⟩
  | succ n ih =>
    intro s a hs hnamed _
    obtain ⟨name, s1, a1, hnext, hs1, hup1, _, hidx1, hlist1, _⟩ := nextItem_step hs hnamed
    obtain ⟨rs, s', hrun, hlen, hidx, hlist⟩ :=
      ih s1 a1 hs1 (by rw [hup1]; exact allNamed_tail hnamed)
        (by rw [hidx1]; exact Nat.mod_lt _ size_mod_pos)
    refine ⟨(s.nextOk, name) :: rs, s', ?_, by simp [hlen], ?_, by rw [hlist, hlist1]⟩
    · simp only [Archive.nextItems, hnext, hrun]
    · rw [hidx, hidx1]
      exact size_mod_step _ _

theorem nextItems_named (names : List String) : ∀ (s : Archive) (a : ReadArchive),
    s.archive = .reader a → s.index < SIZE_MOD →
    (a.upcoming.take names.length).map HeaderResult.pathname = names.map some →
    ∃ s' a', s.nextItems names.length = some (names.map (fun n => (true, n)), s') ∧
      s'.index = (s.index + names.length) % SIZE_MOD ∧ s'.list = s.list ∧
      s'.archive = .reader a' ∧ a'.upcoming = a.upcoming.drop names.length ∧
      a'.deliver = a.deliver := by
  induction names with
  | nil =>
    intro s a hs hlt _
    exact ⟨s, a, rfl, (Nat.mod_eq_of_lt hlt).symm, rfl, hs, rfl, rfl⟩
  | cons name ns ih =>
    intro s a hs _ hfirst
    cases hup : a.upcoming with
    | nil => simp [hup] at hfirst
    | cons r more =>
      simp only [hup, List.length_cons, List.take_succ_cons, List.map_cons, List.cons.injEq]
        at hfirst
      obtain ⟨hr, hmore⟩ := hfirst
      cases r with
      | bad st => simp [HeaderResult.pathname] at hr
      | ok e payload =>
        simp only [HeaderResult.pathname] at hr
        obtain ⟨h1, h2⟩ := nextItem_reader_ok hs hup hr
        obtain ⟨s', a', hrun, hidx, hlist, hs', hup', hdel'⟩ :=
          ih (s.advanced { a with upcoming := more, rest := payload } (some e))
            { a with upcoming := more, rest := payload } rfl
            (Nat.mod_lt _ size_mod_pos) hmore
        refine ⟨s', a', ?_, ?_, hlist, hs', ?_, hdel'⟩
        · simp only [List.length_cons, Archive.nextItems, h1, h2, hrun, List.map_cons]
        · rw [hidx]
          exact size_mod_step _ _
        · simpa using hup'

theorem nextItems_add (n m : Nat) : ∀ (s : Archive),
    s.nextItems (n + m) =
      match s.nextItems n with
      | none => none
      | some (rs, s1) =>
        match s1.nextItems m with
        | none => none
        | some (rs2, s2) => some (rs ++ rs2, s2) := by
  induction n with
  | zero =>
    intro s
    simp only [Nat.zero_add, Archive.nextItems]
    cases s.nextItems m with
    | none => rfl
    | some r => rfl
  | succ n ih =>
    intro s
    rw [Nat.succ_add]
    simp only [Archive.nextItems]
    cases hnext : s.nextItem with
    | none => rfl
    | some r =>
      obtain ⟨name, s1⟩ := r
      simp only [ih s1]
      cases s1.nextItems n with
      | none => rfl
      | some r1 =>
        obtain ⟨rs, s2⟩ := r1
        simp only
        cases s2.nextItems m with
        | none => rfl
        | some r2 => rfl

theorem metadata_at {s : Archive} {items : List Json} {k : Nat}
    (hlist : s.list = some (.array items)) (hidx : s.index = k) (hk1 : 1 ≤ k)
    (hk : k < SIZE_MOD) : s.metadata = items[k - 1]? := by
  have hmod : (k + SIZE_MOD - 1) % SIZE_MOD = k - 1 := by
    simp only [SIZE_MOD] at hk ⊢
    omega
  simp only [Archive.metadata, hidx, hmod, hlist, json_array_get]

theorem open_session_shape {ir : Irods} {loads : List Byte → Option Json} {a : ReadArchive}
    {rsComm : RsComm} {path : String} {r : Archive}
    (h : Archive.open ir loads (some a) rsComm path = .session r) :
    r.index = 0 ∧ r.creating = false ∧
    ∃ e payload more ar, a.upcoming = .ok e payload :: more ∧ r.archive = .reader ar ∧
      ar.upcoming = more ∧ ar.deliver = a.deliver := by
  simp only [Archive.open, archive_read_open, Archive.openFailed] at h
  split at h
  · simp at h
  · split at h
    · simp at h
    · rename_i hok
      simp only [ne_eq, Decidable.not_not] at hok
      obtain ⟨e, he⟩ := (next_header_ok_iff a).1 hok
      obtain ⟨payload, more, hup⟩ := firstHeader_eq_some he
      simp only [next_header_ok hup] at h
      split at h
      · cases h
      · split at h
        · cases h
        · split at h
          · cases h
          · split at h
            · cases h
            · cases h
              refine ⟨rfl, rfl, e, payload, more, _, hup, rfl, ?_, ?_⟩
              · simp only [archive_read_data]
                split <;> rfl
              · simp only [archive_read_data]
                split <;> rfl

theorem itemJson_eq (p : String) (m : Json) :
    itemJson p (some m) = some (.object [("path", .string p), ("metadata", m)]) := by
  simp [itemJson, json_object_set, json_object, json_string, setMember]

theorem itemJson_fields (p : String) (m : Json) :
    json_string_value (json_object_get (itemJson p (some m)) "path") = some p ∧
    json_object_get (itemJson p (some m)) "metadata" = some m := by
  rw [itemJson_eq]
  constructor
  · simp [json_object_get, json_string_value, List.lookup]
  · simp [json_object_get, List.lookup]

/-- C6, as the code behaves: the item index of a session is `0` right after
`open`, and after `n` calls of `nextItem` it is `n` modulo `2 ^ 64`, the number
of calls made, whether a call succeeded or returned the end sentinel. The calls
all return when every entry of the container has a pathname. -/
theorem index_counts_every_call (ir : Irods) (loads : List Byte → Option Json)
    (a : ReadArchive) (rsComm : RsComm) (path : String) (r : Archive) (n : Nat)
    (hopen : Archive.open ir loads (some a) rsComm path = .session r)
    (hnamed : allNamed a.upcoming = true) :
    r.index = 0 ∧
    ∃ rs r', r.nextItems n = some (rs, r') ∧ rs.length = n ∧ r'.index = n % SIZE_MOD := by
  obtain ⟨hidx, _, e, payload, more, ar, hup, har, harup, _⟩ := open_session_shape hopen
  refine ⟨hidx, ?_⟩
  have hmore : allNamed ar.upcoming = true := by
    rw [harup]
    have := allNamed_tail hnamed
    rwa [hup] at this
  obtain ⟨rs, r', hrun, hlen, hri, _⟩ :=
    nextItems_total n r ar har hmore (by rw [hidx]; exact size_mod_pos)
  exact ⟨rs, r', hrun, hlen, by rw [hri, hidx, Nat.zero_add]⟩

/-- C6, amended, at a container that holds only its manifest, for one call. -/
theorem index_counts_every_call_witness :
    ∃ r, Archive.open demoIrods (loadsAt docNoItems jsonNoItems) (some archNoItems) demoComm
        "x.tar" = .session r ∧
      r.index = 0 ∧
      ∃ rs r', r.nextItems 1 = some (rs, r') ∧ rs.length = 1 ∧ r'.index = 1 % SIZE_MOD :=
  ⟨_, rfl, index_counts_every_call demoIrods (loadsAt docNoItems jsonNoItems) archNoItems
    demoComm "x.tar" _ 1 rfl rfl⟩

/-- C6 fails as stated: on a container that holds only its manifest the first
`nextItem` call returns the end sentinel, no call has succeeded, and the item
index is `1`. -/
theorem index_counts_failed_call :
    ∃ r rs r', Archive.open demoIrods (loadsAt docNoItems jsonNoItems) (some archNoItems)
        demoComm "x.tar" = .session r ∧
      r.index = 0 ∧ r.nextItems 1 = some (rs, r') ∧ rs = [(false, "")] ∧
      successes rs = 0 ∧ r'.index = 1 :=
  ⟨_, _, _, rfl, rfl, rfl, rfl, rfl, rfl⟩

/-- C1, as the code behaves: in a reading session with manifest items
`items`, after `k` calls of `nextItem` that all succeed (`1 ≤ k ≤ n`),
`metadata()` returns the `k`-th element of the manifest array itself, the
whole record of the item; when that record is the one `addItem(p, m)` wrote,
`m` is its field `metadata` and `p` its field `path`. -/
theorem metadata_returns_kth_item (s : Archive) (a : ReadArchive) (items : List Json)
    (names : List String) (k : Nat)
    (hs : s.archive = .reader a) (hlist : s.list = some (.array items)) (hidx : s.index = 0)
    (hk1 : 1 ≤ k) (hkn : k ≤ items.length) (hsize : items.length < SIZE_MOD)
    (hnames : names.length = k)
    (hfirst : (a.upcoming.take k).map HeaderResult.pathname = names.map some) :
    ∃ s', s.nextItems k = some (names.map (fun n => (true, n)), s') ∧
      s'.metadata = items[k - 1]? ∧
      (∃ item, s'.metadata = some item) ∧
      ∀ p m, items[k - 1]? = itemJson p (some m) →
        json_object_get s'.metadata "metadata" = some m ∧
        json_string_value (json_object_get s'.metadata "path") = some p := by
  subst hnames
  obtain ⟨s', a', hrun, hi, hl, _⟩ :=
    nextItems_named names s a hs (by rw [hidx]; exact size_mod_pos) hfirst
  have hklt : names.length < SIZE_MOD := lt_of_le_of_lt hkn hsize
  have hi' : s'.index = names.length := by
    rw [hi, hidx, Nat.zero_add, Nat.mod_eq_of_lt hklt]
  have hmeta : s'.metadata = items[names.length - 1]? :=
    metadata_at (hl.trans hlist) hi' hk1 hklt
  refine ⟨s', hrun, hmeta, ?_, ?_⟩
  · have hlt : names.length - 1 < items.length := by omega
    exact ⟨items[names.length - 1], by rw [hmeta, List.getElem?_eq_getElem hlt]⟩
  · intro p m hitem
    rw [hmeta, hitem]
    exact ⟨(itemJson_fields p m).2, (itemJson_fields p m).1⟩

/-- C1, amended, at the session on the container with the one item `("a", "m")`. -/
theorem metadata_returns_kth_item_witness :
    ∃ s', sessionOneItem.nextItems 1 = some ([(true, "a")], s') ∧
      s'.metadata = [Json.object [("path", .string "a"), ("metadata", .string "m")]][0]? ∧
      (∃ item, s'.metadata = some item) ∧
      ∀ p m, [Json.object [("path", .string "a"), ("metadata", .string "m")]][0]?
          = itemJson p (some m) →
        json_object_get s'.metadata "metadata" = some m ∧
        json_string_value (json_object_get s'.metadata "path") = some p :=
  metadata_returns_kth_item sessionOneItem
    { upcoming := [.ok (fileEntry "a" 3) [104, 105, 10]], rest := [], deliver := fullDeliver }
    [.object [("path", .string "a"), ("metadata", .string "m")]] ["a"] 1
    rfl rfl rfl (by decide) (by decide) (by decide) rfl rfl

/-- C1 fails as stated: on the container with the one item `("a", "m")`, after
the first `nextItem` call, which succeeds, `metadata()` returns the record with
the fields `path` and `metadata`, not the value `"m"` of its field `metadata`. -/
theorem metadata_returns_whole_record :
    ∃ r rs r', Archive.open demoIrods (loadsAt docOneItem jsonOneItem) (some archOneItem)
        demoComm "x.tar" = .session r ∧
      r.nextItems 1 = some (rs, r') ∧ rs = [(true, "a")] ∧
      json_object_get (json_array_get r.list 0) "metadata" = some (.string "m") ∧
      r'.metadata = some (.object [("path", .string "a"), ("metadata", .string "m")]) ∧
      r'.metadata ≠ some (.string "m") := by
  refine ⟨_, _, _, rfl, rfl, rfl, rfl, rfl, ?_⟩
  intro h
  have h2 : some (Json.object [("path", .string "a"), ("metadata", .string "m")])
      = some (Json.string "m") := h
  cases h2

/-! ## Extraction -/

theorem read_data_pos {a : ReadArchive} {n : Nat} {k : Nat}
    (hk : a.deliver a.rest.length n = (k : Int)) (hpos : 0 < k) :
    archive_read_data a n = ((k : Int), a.rest.take k, { a with rest := a.rest.drop k }) := by
  have : (0 : Int) < (k : Int) := by omega
  simp [archive_read_data, hk, this]

theorem read_data_end {a : ReadArchive} {n : Nat} (hk : a.deliver a.rest.length n ≤ 0) :
    archive_read_data a n = (a.deliver a.rest.length n, [], a) := by
  have : ¬ (a.deliver a.rest.length n > 0) := by omega
  simp [archive_read_data, this]

theorem extractLoop_copies (fuel : Nat) : ∀ (a : ReadArchive),
    (∀ r, 0 < r →
      1 ≤ a.deliver r BUFSIZE ∧ a.deliver r BUFSIZE ≤ ((min r BUFSIZE : Nat) : Int)) →
    a.deliver 0 BUFSIZE ≤ 0 →
    a.rest.length < fuel →
    ∃ (chunks : List (List Byte)) (a' : ReadArchive),
      extractLoop fuel a = some (chunks.map LocalCall.write, a') ∧
      chunks.flatten = a.rest ∧ (∀ c ∈ chunks, 1 ≤ c.length ∧ c.length ≤ BUFSIZE) ∧
      a'.rest = [] ∧ a'.upcoming = a.upcoming := by
  induction fuel with
  | zero => intro a _ _ h; omega
  | succ fuel ih =>
    intro a hpos hend hfuel
    by_cases h0 : a.rest.length = 0
    · have hnil : a.rest = [] := List.length_eq_zero.mp h0
      have hle : a.deliver a.rest.length BUFSIZE ≤ 0 := by rw [h0]; exact hend
      have hnot : ¬ (a.deliver a.rest.length BUFSIZE > 0) := by omega
      refine ⟨[], a, ?_, by simp [hnil], by simp, hnil, rfl⟩
      simp [extractLoop, read_data_end hle, hnot]
    · obtain ⟨h1, h2⟩ := hpos a.rest.length (by omega)
      obtain ⟨k, hk⟩ : ∃ k : Nat, a.deliver a.rest.length BUFSIZE = (k : Int) :=
        ⟨(a.deliver a.rest.length BUFSIZE).toNat, by omega⟩
      rw [hk] at h1 h2
      have hk1 : 1 ≤ k := by omega
      have hk2 : k ≤ min a.rest.length BUFSIZE := by omega
      have hkl : k ≤ a.rest.length := le_trans hk2 (Nat.min_le_left _ _)
      have hkb : k ≤ BUFSIZE := le_trans hk2 (Nat.min_le_right _ _)
      obtain ⟨chunks, a', hrun, hjoin, hall, hrest, hup⟩ :=
        ih { a with rest := a.rest.drop k } hpos hend (by simp; omega)
      refine ⟨a.rest.take k :: chunks, a', ?_, ?_, ?_, hrest, hup⟩
      · have hkpos : (k : Int) > 0 := by omega
        simp [extractLoop, read_data_pos hk hk1, hkpos, hrun]
      · simp only [List.flatten_cons, hjoin]
        exact List.take_append_drop k a.rest
      · intro c hc
        rcases List.mem_cons.mp hc with rfl | hc
        · rw [List.length_take, Nat.min_eq_left hkl]
          exact ⟨hk1, hkb⟩
        · exact hall c hc

/-- C7: when the current entry has payload `payload` and permission bits `P`,
the codec hands out between 1 and 8192 bytes per read while payload is left and
reports the end afterwards, `extractItem` (given fuel for more reads than the
payload has bytes) opens the destination with `O_CREAT | O_TRUNC | O_WRONLY` and
mode `P`, writes chunks whose concatenation, in order, is exactly the payload,
and closes the destination. -/
theorem extractItem_copies_payload (s0 : Archive) (a0 : ReadArchive) (e : Entry)
    (name : String) (payload : List Byte) (more : List HeaderResult) (filename : String)
    (fuel : Nat)
    (hs : s0.archive = .reader a0) (hup : a0.upcoming = .ok e payload :: more)
    (hname : e.pathname = some name)
    (hpos : ∀ r, 0 < r →
      1 ≤ a0.deliver r BUFSIZE ∧ a0.deliver r BUFSIZE ≤ ((min r BUFSIZE : Nat) : Int))
    (hend : a0.deliver 0 BUFSIZE ≤ 0)
    (hfuel : payload.length < fuel) :
    ∃ (s : Archive) (chunks : List (List Byte)) (s' : Archive),
      s0.nextItem = some (name, s) ∧ s.entry = some e ∧
      s.extractItem fuel filename =
        some (.openFile filename (O_CREAT ||| O_TRUNC ||| O_WRONLY) (archive_entry_perm e) ::
          (chunks.map LocalCall.write ++ [.close]), s') ∧
      chunks.flatten = payload ∧ chunks.flatten.length = payload.length ∧
      ∀ c ∈ chunks, 1 ≤ c.length ∧ c.length ≤ BUFSIZE := by
  obtain ⟨hnext, _⟩ := nextItem_reader_ok hs hup hname
  obtain ⟨chunks, a', hrun, hjoin, hall, _, _⟩ :=
    extractLoop_copies fuel { a0 with upcoming := more, rest := payload } hpos hend hfuel
  refine ⟨s0.advanced { a0 with upcoming := more, rest := payload } (some e), chunks,
    { s0.advanced { a0 with upcoming := more, rest := payload } (some e) with
      archive := .reader a' },
    hnext, rfl, ?_, hjoin, by rw [hjoin], hall⟩
  simp only [Archive.extractItem, Archive.advanced, hrun]
  rfl

/-- C7 at an entry of three bytes that the codec hands out one byte per read. -/
theorem extractItem_copies_payload_witness :
    ∃ (s : Archive) (chunks : List (List Byte)) (s' : Archive),
      sessionDrip.nextItem = some ("a", s) ∧ s.entry = some (fileEntry "a" 3) ∧
      s.extractItem 4 "/tmp/a" =
        some (.openFile "/tmp/a" (O_CREAT ||| O_TRUNC ||| O_WRONLY)
            (archive_entry_perm (fileEntry "a" 3)) ::
          (chunks.map LocalCall.write ++ [.close]), s') ∧
      chunks.flatten = [104, 105, 10] ∧ chunks.flatten.length = [104, 105, 10].length ∧
      ∀ c ∈ chunks, 1 ≤ c.length ∧ c.length ≤ BUFSIZE :=
  extractItem_copies_payload sessionDrip
    { upcoming := [.ok (fileEntry "a" 3) [104, 105, 10]], rest := [], deliver := dripDeliver }
    (fileEntry "a" 3) "a" [104, 105, 10] [] "/tmp/a" 4 rfl rfl rfl
    (by
      intro r hr
      have h0 : r ≠ 0 := by omega
      simp only [dripDeliver, BUFSIZE, h0]
      simp
      omega)
    (by decide) (by decide)

/-! ## Building -/

theorem headerNames_append (xs ys : List WriteOp) :
    headerNames (xs ++ ys) = headerNames xs ++ headerNames ys := by
  induction xs with
  | nil => rfl
  | cons x xs ih =>
    cases x with
    | header e => simp [headerNames, ih]
    | data bytes => simp [headerNames, ih]

theorem headerNames_data (ds : List (List Byte)) : headerNames (ds.map WriteOp.data) = [] := by
  induction ds with
  | nil => rfl
  | cons d ds ih => simp [headerNames, ih]

theorem payloadOf_data_append (ds : List (List Byte)) (ops : List WriteOp) :
    payloadOf (ds.map WriteOp.data ++ ops) = ds.flatten ++ payloadOf ops := by
  induction ds with
  | nil => simp
  | cons d ds ih => simp [payloadOf, ih]

theorem membersOf_data_append (ds : List (List Byte)) (ops : List WriteOp) :
    membersOf (ds.map WriteOp.data ++ ops) = membersOf ops := by
  induction ds with
  | nil => simp
  | cons d ds ih => simp [membersOf, ih]

theorem membersOf_pathname (ops : List WriteOp) :
    (membersOf ops).map HeaderResult.pathname = headerNames ops := by
  induction ops with
  | nil => rfl
  | cons x xs ih =>
    cases x with
    | header e => simp [membersOf, headerNames, HeaderResult.pathname, ih]
    | data bytes => simp [membersOf, headerNames, ih]

theorem pump_ops (fuel : Nat) : ∀ (rest : List Byte) (w : WriteArchive),
    ∃ ds : List (List Byte), (pump fuel rest w).ops = w.ops ++ ds.map WriteOp.data ∧
      (pump fuel rest w).format = w.format ∧
      (rest.length < fuel → ds.flatten = rest) := by
  induction fuel with
  | zero =>
    intro rest w
    exact ⟨[], by simp [pump], rfl, by intro h; omega⟩
  | succ fuel ih =>
    intro rest w
    by_cases h0 : rest.length = 0
    · have hnil : rest = [] := List.length_eq_zero.mp h0
      refine ⟨[], ?_, ?_, ?_⟩
      · simp [pump, hnil]
      · simp [pump, hnil]
      · intro _; simp [hnil]
    · have hpos : min BUFSIZE rest.length > 0 := by
        simp only [BUFSIZE]; omega
      obtain ⟨ds, hops, hfmt, hcat⟩ := ih (rest.drop (min BUFSIZE rest.length))
        (archive_write_data w (rest.take BUFSIZE) (min BUFSIZE rest.length))
      have hstep : pump (fuel + 1) rest w = pump fuel (rest.drop (min BUFSIZE rest.length))
          (archive_write_data w (rest.take BUFSIZE) (min BUFSIZE rest.length)) := by
        simp only [pump, hpos, if_true]
      refine ⟨rest.take (min BUFSIZE rest.length) :: ds, ?_, ?_, ?_⟩
      · rw [hstep, hops]
        simp [archive_write_data, List.take_take]
      · rw [hstep, hfmt]
        rfl
      · intro hlt
        simp only [List.flatten_cons]
        rw [hcat (by simp only [List.length_drop]; omega)]
        exact List.take_append_drop _ _

theorem buildItems_succ (fs : LocalFS) (list : Option Json) (n index : Nat) (w : WriteArchive) :
    buildItems fs list (n + 1) index w =
      match (json_string_value (json_object_get (json_array_get list index) "path")).bind
          fs.content with
      | none =>
        { archive := archive_write_header w (itemHeader fs
            (json_string_value (json_object_get (json_array_get list index) "path")))
          finished := false }
      | some bytes =>
        buildItems fs list n (index + 1) (pump (bytes.length + 1) bytes
          (archive_write_header w (itemHeader fs
            (json_string_value (json_object_get (json_array_get list index) "path"))))) :=
  rfl

theorem itemObj_path (p : String × Json) :
    json_string_value (json_object_get (some (itemObj p)) "path") = some p.1 := by
  simp [itemObj, json_object_get, json_string_value, List.lookup]

theorem buildItems_readable (fs : LocalFS) (pairs : List (String × Json))
    (hread : ∀ p ∈ pairs, (fs.content p.1).isSome = true) (n : Nat) :
    ∀ (index : Nat) (w : WriteArchive), index + n = pairs.length →
    ∃ tail, (buildItems fs (some (.array (pairs.map itemObj))) n index w).archive.ops
        = w.ops ++ tail ∧
      (buildItems fs (some (.array (pairs.map itemObj))) n index w).finished = true ∧
      headerNames tail = (pairs.drop index).map (fun p => some p.1) ∧
      payloadOf tail = [] := by
  induction n with
  | zero =>
    intro index w hlen
    refine ⟨[], by simp [buildItems], rfl, ?_, rfl⟩
    have : pairs.drop index = [] := List.drop_eq_nil_of_le (by omega)
    simp [this, headerNames]
  | succ n ih =>
    intro index w hlen
    have hlt : index < pairs.length := by omega
    have hget : json_array_get (some (.array (pairs.map itemObj))) index
        = some (itemObj pairs[index]) := by
      simp [json_array_get, List.getElem?_eq_getElem hlt]
    have hname : json_string_value (json_object_get
        (json_array_get (some (.array (pairs.map itemObj))) index) "path")
        = some pairs[index].1 := by
      rw [hget]
      exact itemObj_path _
    obtain ⟨bytes, hbytes⟩ := Option.isSome_iff_exists.mp
      (hread pairs[index] (List.getElem_mem hlt))
    rw [buildItems_succ, hname,
      show (some pairs[index].1).bind fs.content = some bytes from hbytes]
    simp only []
    obtain ⟨ds, hops, _, _⟩ := pump_ops (bytes.length + 1) bytes
      (archive_write_header w (itemHeader fs (some pairs[index].1)))
    obtain ⟨tail, ht, hfin, hnames, _⟩ := ih (index + 1) (pump (bytes.length + 1) bytes
      (archive_write_header w (itemHeader fs (some pairs[index].1)))) (by omega)
    refine ⟨.header (itemHeader fs (some pairs[index].1)) :: (ds.map WriteOp.data ++ tail),
      ?_, hfin, ?_, rfl⟩
    · rw [ht, hops]
      simp [archive_write_header]
    · have hd : pairs.drop index = pairs[index] :: pairs.drop (index + 1) :=
        List.drop_eq_getElem_cons hlt
      rw [hd]
      simp only [headerNames, headerNames_append, headerNames_data, hnames, itemHeader,
        List.map_cons, List.nil_append]

theorem manifestJson_array (c : String) (items : List Json) :
    manifestJson c (some (.array items))
      = some (.object [("collection", .string c), ("items", .array items)]) := by
  simp [manifestJson, json_object_set, json_object, json_string, setMember]

theorem build_eq (dumps : Option Json → List Byte) (fs : LocalFS) (s : Archive)
    (w : WriteArchive) (hs : s.archive = .writer w) :
    s.build dumps fs = some (buildItems fs s.list (json_array_size s.list) 0
      { w with ops := w.ops ++
          [.header { pathname := some "INDEX.json", filetype := AE_IFREG, perm := 0o444,
                     size := (dumps (manifestJson s.origin s.list)).length, mtime := none },
           .data (dumps (manifestJson s.origin s.list))] }) := by
  have h1 : AE_IFREG &&& AE_IFMT = AE_IFREG := by decide
  have h2 : 0o444 &&& AE_PERM_MASK = 0o444 := by decide
  simp only [Archive.build, hs, archive_write_header, archive_write_data,
    archive_entry_new, archive_entry_set_pathname, archive_entry_set_filetype,
    archive_entry_set_perm, archive_entry_set_size, h1, h2, List.take_length,
    List.append_assoc, List.singleton_append]

theorem create_shape {ir : Irods} {byExt : String → Option Format} {wa : WriteArchive}
    {comm : RsComm} {dest c : String} {s0 : Archive}
    (h : Archive.create ir byExt (some wa) comm dest c = some s0) :
    s0.list = some (.array []) ∧ s0.origin = c ∧ s0.creating = true ∧ s0.index = 0 ∧
    ∃ w, s0.archive = .writer w ∧ w.ops = wa.ops := by
  simp only [Archive.create, archive_write_open] at h
  split at h
  · cases h
  · cases h
    refine ⟨rfl, rfl, rfl, rfl, _, rfl, ?_⟩
    cases byExt dest <;> rfl

theorem addItems_shape (pairs : List (String × Json)) : ∀ (s : Archive) (xs : List Json),
    s.list = some (.array xs) →
    (addItems pairs s).list = some (.array (xs ++ pairs.map itemObj)) ∧
    (addItems pairs s).origin = s.origin ∧ (addItems pairs s).archive = s.archive ∧
    (addItems pairs s).creating = s.creating := by
  induction pairs with
  | nil =>
    intro s xs h
    simp [addItems, h]
  | cons p ps ih =>
    intro s xs h
    have hstep : (s.addItem p.1 (some p.2)).list = some (.array (xs ++ [itemObj p])) := by
      simp [Archive.addItem, h, json_array_append_new, json_object_set, json_object,
        json_string, setMember, itemObj]
    obtain ⟨h1, h2, h3, h4⟩ := ih (s.addItem p.1 (some p.2)) (xs ++ [itemObj p]) hstep
    refine ⟨?_, ?_, ?_, ?_⟩
    · simp only [addItems, List.foldl_cons] at h1 ⊢
      rw [h1]
      simp
    · simp only [addItems, List.foldl_cons] at h2 ⊢
      rw [h2]
      rfl
    · simp only [addItems, List.foldl_cons] at h3 ⊢
      rw [h3]
      rfl
    · simp only [addItems, List.foldl_cons] at h4 ⊢
      rw [h4]
      rfl

theorem buildItems_shape (fs : LocalFS) (list : Option Json) (n : Nat) :
    ∀ (index : Nat) (w : WriteArchive),
    ∃ (tail : List WriteOp) (later : List (Option String)),
      (buildItems fs list n index w).archive.ops = w.ops ++ tail ∧
      (tail = [] ∨ ∃ e rest, tail = .header e :: rest) ∧
      (List.range' index n).map (itemPath list) = headerNames tail ++ later := by
  induction n with
  | zero =>
    intro index w
    exact ⟨[], [], by simp [buildItems], Or.inl rfl, by simp [headerNames]⟩
  | succ n ih =>
    intro index w
    rw [buildItems_succ]
    split
    · refine ⟨[.header (itemHeader fs (itemPath list index))],
        (List.range' (index + 1) n).map (itemPath list), rfl, Or.inr ⟨_, _, rfl⟩, ?_⟩
      simp [List.range'_succ, headerNames, itemHeader]
    · rename_i bytes _
      obtain ⟨ds, hops, _, _⟩ := pump_ops (bytes.length + 1) bytes
        (archive_write_header w (itemHeader fs (itemPath list index)))
      obtain ⟨tail, later, ht, _, hpaths⟩ := ih (index + 1) (pump (bytes.length + 1) bytes
        (archive_write_header w (itemHeader fs (itemPath list index))))
      refine ⟨.header (itemHeader fs (itemPath list index)) :: (ds.map WriteOp.data ++ tail),
        later, ?_, Or.inr ⟨_, _, rfl⟩, ?_⟩
      · show (buildItems fs list n (index + 1) (pump (bytes.length + 1) bytes
          (archive_write_header w (itemHeader fs (itemPath list index))))).archive.ops = _
        rw [ht, hops]
        simp [archive_write_header]
      · simp only [List.range'_succ, List.map_cons, headerNames, headerNames_append,
          headerNames_data, List.nil_append, List.cons_append, hpaths, itemHeader]

/-- C4: for every building session, whatever its origin and item list, `build`
hands to the codec first the header of an entry named `INDEX.json`, of type
regular file, permission `0444` and size the length of the serialized manifest,
and directly after it the bytes of the serialized manifest, exactly that many;
what follows is nothing or starts with a header, so no other data belongs to
the manifest entry, and every later header is the header of an item, in
manifest order. -/
theorem build_writes_manifest_first (dumps : Option Json → List Byte) (fs : LocalFS)
    (s : Archive) (w : WriteArchive) (hs : s.archive = .writer w) :
    ∃ b items, s.build dumps fs = some b ∧
      b.archive.ops = w.ops ++
        (.header { pathname := some "INDEX.json", filetype := AE_IFREG, perm := 0o444,
                   size := (dumps (manifestJson s.origin s.list)).length, mtime := none } ::
         .data (dumps (manifestJson s.origin s.list)) :: items) ∧
      (items = [] ∨ ∃ e rest, items = .header e :: rest) ∧
      payloadOf (.data (dumps (manifestJson s.origin s.list)) :: items)
        = dumps (manifestJson s.origin s.list) ∧
      ∃ later, itemPaths s.list = headerNames items ++ later := by
  obtain ⟨tail, later, ht, hshape, hpaths⟩ :=
    buildItems_shape fs s.list (json_array_size s.list) 0
      { w with ops := w.ops ++
          [.header { pathname := some "INDEX.json", filetype := AE_IFREG, perm := 0o444,
                     size := (dumps (manifestJson s.origin s.list)).length, mtime := none },
           .data (dumps (manifestJson s.origin s.list))] }
  refine ⟨_, tail, build_eq dumps fs s w hs, ?_, hshape, ?_, later, ?_⟩
  · rw [ht]
    simp
  · rcases hshape with h | ⟨e, rest, h⟩
    · simp [h, payloadOf]
    · simp [h, payloadOf]
  · rw [← hpaths, itemPaths, List.range_eq_range']

/-- C4 at a building session with one item. -/
theorem build_writes_manifest_first_witness :
    ∃ b items, sessionBuilding.build (dumpsAt docOneItem) demoFS = some b ∧
      b.archive.ops = freshWrite.ops ++
        (.header { pathname := some "INDEX.json", filetype := AE_IFREG, perm := 0o444,
                   size := (dumpsAt docOneItem
                     (manifestJson sessionBuilding.origin sessionBuilding.list)).length,
                   mtime := none } ::
         .data (dumpsAt docOneItem (manifestJson sessionBuilding.origin sessionBuilding.list)) ::
         items) ∧
      (items = [] ∨ ∃ e rest, items = .header e :: rest) ∧
      payloadOf (.data (dumpsAt docOneItem
          (manifestJson sessionBuilding.origin sessionBuilding.list)) :: items)
        = dumpsAt docOneItem (manifestJson sessionBuilding.origin sessionBuilding.list) ∧
      ∃ later, itemPaths sessionBuilding.list = headerNames items ++ later :=
  build_writes_manifest_first (dumpsAt docOneItem) demoFS sessionBuilding freshWrite rfl


/-! ## Round trip -/

theorem manifest_fields (c : String) (items : List Json) :
    json_string_value (json_object_get
      (some (.object [("collection", .string c), ("items", .array items)])) "collection")
      = some c ∧
    json_object_get (some (.object [("collection", .string c), ("items", .array items)]))
      "items" = some (.array items) := by
  constructor
  · simp [json_object_get, json_string_value, List.lookup]
  · simp [json_object_get, List.lookup]

theorem built_session (ir : Irods) (byExt : String → Option Format)
    (dumps : Option Json → List Byte) (fs : LocalFS) (wa : WriteArchive) (comm : RsComm)
    (dest c : String) (pairs : List (String × Json)) (s0 : Archive)
    (hfresh : wa.ops = [])
    (hcreate : Archive.create ir byExt (some wa) comm dest c = some s0) :
    (addItems pairs s0).list = some (.array (pairs.map itemObj)) ∧
    (addItems pairs s0).origin = c ∧
    ∃ fmt : Option Format,
      ((addItems pairs s0).destroy ir dumps fs).1 =
        some (buildItems fs (some (.array (pairs.map itemObj))) pairs.length 0
          { format := fmt, ops :=
              [.header { pathname := some "INDEX.json", filetype := AE_IFREG, perm := 0o444,
                         size := (dumps (manifestJson c
                           (some (.array (pairs.map itemObj))))).length,
                         mtime := none },
               .data (dumps (manifestJson c (some (.array (pairs.map itemObj)))))] }) := by
  obtain ⟨hl0, ho0, hc0, _, w, hw, hwops⟩ := create_shape hcreate
  obtain ⟨hl, ho, ha, hc⟩ := addItems_shape pairs s0 [] hl0
  rw [List.nil_append] at hl
  refine ⟨hl, ho.trans ho0, w.format, ?_⟩
  have hb := build_eq dumps fs (addItems pairs s0) w (ha.trans hw)
  rw [hl, ho, ho0, hwops, hfresh] at hb
  simp only [Archive.destroy, hc, hc0, if_true, hb, json_array_size, List.length_map,
    List.nil_append]
  split <;> rfl

theorem nextItems_one_at_end {s : Archive} {a : ReadArchive} (hs : s.archive = .reader a)
    (hup : a.upcoming = []) :
    s.nextItems 1 = some ([(false, "")], s.advanced { a with rest := [] } none) := by
  obtain ⟨h1, h2⟩ := nextItem_reader_empty hs hup
  simp only [Archive.nextItems, h1, h2]

/-- C8, for source objects that can be read: when every item's source object
can be opened and read, the teardown of a building session with items
`i_1..i_n` runs to its end and the headers it hands to the codec are the
manifest header followed by exactly `n` headers, the `k`-th with pathname
`i_k.path`; on the container a correct codec makes of them, `open` succeeds
(given that `json_loads` inverts `json_dumps` on the manifest), the first `n`
calls of `nextItem` succeed and return the paths in order, and call `n + 1`
returns the end sentinel. -/
theorem build_then_iterate (ir : Irods) (byExt : String → Option Format)
    (dumps : Option Json → List Byte) (loads : List Byte → Option Json) (fs : LocalFS)
    (wa : WriteArchive) (comm comm2 : RsComm) (dest c : String)
    (pairs : List (String × Json)) (s0 : Archive)
    (hfresh : wa.ops = [])
    (hcreate : Archive.create ir byExt (some wa) comm dest c = some s0)
    (hread : ∀ p ∈ pairs, (fs.content p.1).isSome = true)
    (hloads : loads (dumps (manifestJson (addItems pairs s0).origin (addItems pairs s0).list))
        = manifestJson (addItems pairs s0).origin (addItems pairs s0).list)
    (hback : 0 ≤ (ir.answer comm2.log (.fileOpen (openInput ir dest))).status) :
    ∃ b r r', ((addItems pairs s0).destroy ir dumps fs).1 = some b ∧ b.finished = true ∧
      headerNames b.archive.ops = some "INDEX.json" :: pairs.map (fun p => some p.1) ∧
      Archive.open ir loads (some (containerOf b.archive.ops)) comm2 dest = .session r ∧
      r.nextItems (pairs.length + 1)
        = some (pairs.map (fun p => (true, p.1)) ++ [(false, "")], r') := by
  obtain ⟨hl, ho, fmt, hdestroy⟩ :=
    built_session ir byExt dumps fs wa comm dest c pairs s0 hfresh hcreate
  rw [hl, ho, manifestJson_array] at hloads
  rw [manifestJson_array] at hdestroy
  obtain ⟨tail, hops, hfin, hnames, hpay⟩ := buildItems_readable fs pairs hread pairs.length 0
    { format := fmt, ops :=
        [.header { pathname := some "INDEX.json", filetype := AE_IFREG, perm := 0o444,
                   size := (dumps (some (.object [("collection", .string c),
                     ("items", .array (pairs.map itemObj))]))).length,
                   mtime := none },
         .data (dumps (some (.object [("collection", .string c),
           ("items", .array (pairs.map itemObj))])))] } (by simp)
  simp only [List.drop_zero, List.cons_append, List.nil_append] at hops hnames
  have hmem : (containerOf (buildItems fs (some (.array (pairs.map itemObj))) pairs.length 0
      { format := fmt, ops :=
        [.header { pathname := some "INDEX.json", filetype := AE_IFREG, perm := 0o444,
                   size := (dumps (some (.object [("collection", .string c),
                     ("items", .array (pairs.map itemObj))]))).length,
                   mtime := none },
         .data (dumps (some (.object [("collection", .string c),
           ("items", .array (pairs.map itemObj))])))] }).archive.ops).upcoming
      = .ok { pathname := some "INDEX.json", filetype := AE_IFREG, perm := 0o444,
              size := (dumps (some (.object [("collection", .string c),
                ("items", .array (pairs.map itemObj))]))).length,
              mtime := none }
          (dumps (some (.object [("collection", .string c),
            ("items", .array (pairs.map itemObj))]))) :: membersOf tail := by
    rw [hops]
    simp [containerOf, membersOf, payloadOf, hpay]
  obtain ⟨r, hopen, _, _, hri, _, hra⟩ := open_of_manifest ir loads _ comm2 dest _ _ _
    (.object [("collection", .string c), ("items", .array (pairs.map itemObj))]) c
    hback hmem rfl rfl (by simp [containerOf, fullDeliver]) hloads (manifest_fields c _).1
  have hmp : (membersOf tail).map HeaderResult.pathname = pairs.map (fun p => some p.1) := by
    rw [membersOf_pathname, hnames]
  have hlen : (membersOf tail).length = pairs.length := by
    have := congrArg List.length hmp
    simpa using this
  obtain ⟨s', a', hrun, _, _, hs', hup', _⟩ := nextItems_named (pairs.map (fun p => p.1)) r _ hra
    (by rw [hri]; exact size_mod_pos)
    (by
      simp only [List.length_map]
      rw [List.take_of_length_le (le_of_eq hlen), List.map_map]
      exact hmp)
  have hup0 : a'.upcoming = [] := by
    rw [hup']
    exact List.drop_eq_nil_of_le (by rw [List.length_map]; exact le_of_eq hlen)
  simp only [List.length_map, List.map_map] at hrun
  refine ⟨_, r, s'.advanced { a' with rest := [] } none, hdestroy, hfin, ?_, hopen, ?_⟩
  · rw [hops]
    simp [headerNames, hnames]
  · rw [nextItems_add, hrun]
    simp only [nextItems_one_at_end hs' hup0]
    rfl

/-- C8, amended, at the one item `("a", "m")` whose source object is readable. -/
theorem build_then_iterate_witness :
    ∃ b r r', ((addItems [("a", Json.string "m")]
        (Archive.new (.writer { format := some { filter := "gzip", format := "ustar" },
                                ops := [] })
          { rsComm := { log := [.fileOpen (openInput demoIrods "x.tar")] }, name := "x.tar",
            index := 3, buf := [] } true json_array "x.tar" "c")).destroy demoIrods
        (dumpsAt docOneItem) demoFS).1 = some b ∧
      b.finished = true ∧
      headerNames b.archive.ops
        = some "INDEX.json" :: [("a", Json.string "m")].map (fun p => some p.1) ∧
      Archive.open demoIrods (loadsAt docOneItem jsonOneItem) (some (containerOf b.archive.ops))
        demoComm "x.tar" = .session r ∧
      r.nextItems ([("a", Json.string "m")].length + 1)
        = some ([("a", Json.string "m")].map (fun p => (true, p.1)) ++ [(false, "")], r') :=
  build_then_iterate demoIrods noExt (dumpsAt docOneItem) (loadsAt docOneItem jsonOneItem)
    demoFS freshWrite demoComm demoComm "x.tar" "c" [("a", Json.string "m")] _
    rfl rfl
    (by
      intro p hp
      rcases List.mem_singleton.mp hp with rfl
      rfl)
    rfl (by decide)

/-- C8 fails as stated: in a building session with the two items `zz` and `a`,
where the source object `zz` cannot be opened, `build` does not run to its end
and hands the codec one header after the manifest, not two. -/
theorem build_stops_at_unreadable_item :
    ∃ s0 b, Archive.create demoIrods noExt (some freshWrite) demoComm "x.tar" "c" = some s0 ∧
      demoFS.content "zz" = none ∧
      ((addItems [("zz", Json.null), ("a", Json.string "m")] s0).destroy demoIrods
        (dumpsAt docTwoItems) demoFS).1 = some b ∧
      b.finished = false ∧
      headerNames b.archive.ops = [some "INDEX.json", some "zz"] ∧
      (headerNames (b.archive.ops.drop 2)).length = 1 :=
  ⟨_, _, rfl, rfl, rfl, rfl, rfl, rfl⟩

end ArchiveModel
